import Mathlib

/-!
Verification of the ephemeral session store engine
(`src/SessionStore.node.ts` of `n8n-nodes-ephemeral-context`).

The store keeps JSON-like trees addressed by dot-separated paths, in three
partitions (execution / workflow / global), with conditional writes, numeric
counters, queue/stack array operations, a per-value serialized-size guard and
TTL-based garbage collection.

Modelling conventions for the JavaScript source:
* JavaScript values are embedded as the inductive `Value` below.  A JS array
  is `Value.arr elems props`: besides its indexed elements, a JS array is an
  object and can carry non-index string properties (the source's `setDeep`
  walks into arrays and attaches such properties); `props` models those.
  Exotic JS object-model behaviour (prototype chains, the magic `length`
  property, sparse-array holes) is not modelled: an index write beyond the
  current length is stored as an out-of-band property, and deleting an
  in-range index stores `null` (JS leaves a hole that serializes to `null`).
* JS numbers are embedded as `Int`; the claims under verification only
  exercise integral numbers.
* `undefined` is represented by `Option.none` at the points where the source
  can observe it (`getDeep` misses); it is never stored in a tree.
* In-place mutation of a tree through a live reference (e.g. `arr.pop()`)
  is modelled as a functional update written back at the same path, which
  coincides with the source on trees (the store never aliases one node under
  two paths).
-/

namespace SessionStore

/-- JSON-like runtime value (JS value as stored in the session trees). -/
inductive Value where
  | null : Value
  | bool (b : Bool) : Value
  | num (n : Int) : Value
  | str (s : String) : Value
  | arr (elems : List Value) (props : List (String × Value)) : Value
  | obj (fields : List (String × Value)) : Value

mutual

def decEqV : (v w : Value) → Decidable (v = w)
  | .null, .null => isTrue rfl
  | .bool a, .bool b =>
    if h : a = b then isTrue (by rw [h]) else isFalse (fun he => h (by cases he; rfl))
  | .num a, .num b =>
    if h : a = b then isTrue (by rw [h]) else isFalse (fun he => h (by cases he; rfl))
  | .str a, .str b =>
    if h : a = b then isTrue (by rw [h]) else isFalse (fun he => h (by cases he; rfl))
  | .arr es ps, .arr es' ps' =>
    match decEqL es es', decEqP ps ps' with
    | isTrue h1, isTrue h2 => isTrue (by rw [h1, h2])
    | isFalse h1, _ => isFalse (fun he => h1 (by cases he; rfl))
    | _, isFalse h2 => isFalse (fun he => h2 (by cases he; rfl))
  | .obj fs, .obj fs' =>
    match decEqP fs fs' with
    | isTrue h => isTrue (by rw [h])
    | isFalse h => isFalse (fun he => h (by cases he; rfl))
  | .null, .bool _ => isFalse (fun h => Value.noConfusion h)
  | .null, .num _ => isFalse (fun h => Value.noConfusion h)
  | .null, .str _ => isFalse (fun h => Value.noConfusion h)
  | .null, .arr _ _ => isFalse (fun h => Value.noConfusion h)
  | .null, .obj _ => isFalse (fun h => Value.noConfusion h)
  | .bool _, .null => isFalse (fun h => Value.noConfusion h)
  | .bool _, .num _ => isFalse (fun h => Value.noConfusion h)
  | .bool _, .str _ => isFalse (fun h => Value.noConfusion h)
  | .bool _, .arr _ _ => isFalse (fun h => Value.noConfusion h)
  | .bool _, .obj _ => isFalse (fun h => Value.noConfusion h)
  | .num _, .null => isFalse (fun h => Value.noConfusion h)
  | .num _, .bool _ => isFalse (fun h => Value.noConfusion h)
  | .num _, .str _ => isFalse (fun h => Value.noConfusion h)
  | .num _, .arr _ _ => isFalse (fun h => Value.noConfusion h)
  | .num _, .obj _ => isFalse (fun h => Value.noConfusion h)
  | .str _, .null => isFalse (fun h => Value.noConfusion h)
  | .str _, .bool _ => isFalse (fun h => Value.noConfusion h)
  | .str _, .num _ => isFalse (fun h => Value.noConfusion h)
  | .str _, .arr _ _ => isFalse (fun h => Value.noConfusion h)
  | .str _, .obj _ => isFalse (fun h => Value.noConfusion h)
  | .arr _ _, .null => isFalse (fun h => Value.noConfusion h)
  | .arr _ _, .bool _ => isFalse (fun h => Value.noConfusion h)
  | .arr _ _, .num _ => isFalse (fun h => Value.noConfusion h)
  | .arr _ _, .str _ => isFalse (fun h => Value.noConfusion h)
  | .arr _ _, .obj _ => isFalse (fun h => Value.noConfusion h)
  | .obj _, .null => isFalse (fun h => Value.noConfusion h)
  | .obj _, .bool _ => isFalse (fun h => Value.noConfusion h)
  | .obj _, .num _ => isFalse (fun h => Value.noConfusion h)
  | .obj _, .str _ => isFalse (fun h => Value.noConfusion h)
  | .obj _, .arr _ _ => isFalse (fun h => Value.noConfusion h)

def decEqL : (vs ws : List Value) → Decidable (vs = ws)
  | [], [] => isTrue rfl
  | [], _ :: _ => isFalse (fun h => List.noConfusion h)
  | _ :: _, [] => isFalse (fun h => List.noConfusion h)
  | v :: vs, w :: ws =>
    match decEqV v w, decEqL vs ws with
    | isTrue h1, isTrue h2 => isTrue (by rw [h1, h2])
    | isFalse h1, _ => isFalse (fun he => h1 (by cases he; rfl))
    | _, isFalse h2 => isFalse (fun he => h2 (by cases he; rfl))

def decEqP : (ps qs : List (String × Value)) → Decidable (ps = qs)
  | [], [] => isTrue rfl
  | [], _ :: _ => isFalse (fun h => List.noConfusion h)
  | _ :: _, [] => isFalse (fun h => List.noConfusion h)
  | (k, v) :: ps, (k', w) :: qs =>
    match String.decEq k k', decEqV v w, decEqP ps qs with
    | isTrue h0, isTrue h1, isTrue h2 => isTrue (by rw [h0, h1, h2])
    | isFalse h0, _, _ => isFalse (fun he => h0 (by cases he; rfl))
    | _, isFalse h1, _ => isFalse (fun he => h1 (by cases he; rfl))
    | _, _, isFalse h2 => isFalse (fun he => h2 (by cases he; rfl))

end

instance : DecidableEq Value := decEqV

namespace Value

/-- `typeof v === 'object' && v !== null` in JS: a mapping or a sequence.
(`null` has `typeof 'object'` but every use site in the source also rules it
out, via `!x`, `x === null` or `x && ...`.) -/
def isObjLike : Value → Bool
  | arr _ _ => true
  | obj _ => true
  | _ => false

/-- `Array.isArray`. -/
def isArr : Value → Bool
  | arr _ _ => true
  | _ => false

end Value

/-- Association-list lookup (JS own-property read on an object with unique
keys). -/
def lookupA (k : String) : List (String × Value) → Option Value
  | [] => none
  | (k', v) :: rest => if k' = k then some v else lookupA k rest

/-- Association-list write: update in place if the key exists (JS keeps the
key's insertion position), else append (JS appends new keys). -/
def setA (k : String) (v : Value) : List (String × Value) → List (String × Value)
  | [] => [(k, v)]
  | (k', v') :: rest => if k' = k then (k, v) :: rest else (k', v') :: setA k v rest

/-- Association-list delete (JS `delete obj[k]`). -/
def eraseA (k : String) : List (String × Value) → List (String × Value)
  | [] => []
  | (k', v') :: rest => if k' = k then rest else (k', v') :: eraseA k rest

/-- Decimal digits to a natural number. -/
def digitsToNat : List Char → Nat → Nat
  | [], acc => acc
  | c :: cs, acc => digitsToNat cs (acc * 10 + (c.toNat - 48))

/-- A canonical JS array-index string: digits only, no leading zero (except
`"0"` itself), value below 2^32 − 1. -/
def toIndex (s : String) : Option Nat :=
  match s.data with
  | [] => none
  | c :: cs =>
    if (c :: cs).all Char.isDigit ∧ (cs = [] ∨ c ≠ '0') then
      let n := digitsToNat (c :: cs) 0
      if n < 4294967295 then some n else none
    else none

namespace Value

/-- JS property read `v[k]` (returns `none` for `undefined`). On an array a
canonical index reads the element; other keys read the out-of-band
properties. -/
def getProp (v : Value) (k : String) : Option Value :=
  match v with
  | obj fields => lookupA k fields
  | arr elems props =>
    match toIndex k with
    | some i => (elems[i]?).orElse (fun _ => lookupA k props)
    | none => lookupA k props
  | _ => none

/-- JS property write `v[k] = x`.  On a primitive this is a silent no-op
(non-strict mode).  On an array, a canonical index in range updates the
element, index = length appends (JS grows the array), and a larger index or a
non-index key is stored as an out-of-band property. -/
def setProp (v : Value) (k : String) (x : Value) : Value :=
  match v with
  | obj fields => obj (setA k x fields)
  | arr elems props =>
    match toIndex k with
    | some i =>
      if i < elems.length then arr (elems.set i x) props
      else if i = elems.length then arr (elems ++ [x]) props
      else arr elems (setA k x props)
    | none => arr elems (setA k x props)
  | v => v

/-- JS `delete v[k]`.  Deleting an in-range array index is modelled as
storing `null` (JS leaves a hole, which serializes to `null`). -/
def delProp (v : Value) (k : String) : Value :=
  match v with
  | obj fields => obj (eraseA k fields)
  | arr elems props =>
    match toIndex k with
    | some i =>
      if i < elems.length then arr (elems.set i Value.null) props
      else arr elems (eraseA k props)
    | none => arr elems (eraseA k props)
  | v => v

end Value

/-- JS `path.split('.')` on the character list: never returns `[]`
(`"".split('.')` is `[""]`). -/
def splitChars : List Char → List String
  | [] => [""]
  | c :: rest =>
    if c = '.' then "" :: splitChars rest
    else
      match splitChars rest with
      | [] => [String.mk [c]]
      | s :: ss => String.mk (c :: s.data) :: ss

/-- The dot-separated segments of a path (`path.split('.')`). -/
def segments (path : String) : List String := splitChars path.data

theorem splitChars_ne_nil (cs : List Char) : splitChars cs ≠ [] := by
  induction cs with
  | nil => simp [splitChars]
  | cons c rest ih =>
    simp only [splitChars]
    split
    · simp
    · cases h : splitChars rest with
      | nil => exact absurd h ih
      | cons s ss => simp

theorem segments_ne_nil (p : String) : segments p ≠ [] := splitChars_ne_nil p.data

/-- The intermediate-segment step of `setDeep`: `if (!current[key] ||
typeof current[key] !== 'object') current[key] = {}` — descend into the
current child when it is a truthy object (mapping or sequence), otherwise
replace it with a fresh empty mapping.  (`null`, `undefined`, `0`, `""` and
`false` are falsy; every mapping/sequence, including `{}` and `[]`, is
truthy and of `typeof 'object'`.) -/
def coerceChild : Option Value → Value
  | some c => if c.isObjLike then c else Value.obj []
  | none => Value.obj []

/-- `setDeep` on the already-split segment list (the source's loop over
`keys`, then `current[keys[keys.length - 1]] = value`). -/
def setDeepGo (t : Value) : List String → Value → Value
  | [], _ => t
  | [k], x => t.setProp k x
  | k :: k' :: rest, x => t.setProp k (setDeepGo (coerceChild (t.getProp k)) (k' :: rest) x)

/-- `SessionStore.setDeep(obj, path, value)` (source lines 428–439). -/
def setDeep (t : Value) (path : String) (x : Value) : Value :=
  setDeepGo t (segments path) x

/-- `getDeep` on the already-split segment list; `none` is JS `undefined`. -/
def getDeepGo : Value → List String → Option Value
  | t, [] => some t
  | t, k :: rest =>
    if t.isObjLike then
      match t.getProp k with
      | some c => getDeepGo c rest
      | none => none
    else none

/-- `SessionStore.getDeep(obj, path)` without a default (source lines
441–451): `none` when the walk falls off the tree or the resolved value is
`undefined`. -/
def getDeep (t : Value) (path : String) : Option Value :=
  getDeepGo t (segments path)

/-- `SessionStore.getDeep(obj, path, defaultValue)`. -/
def getDeepD (t : Value) (path : String) (d : Value) : Value :=
  (getDeep t path).getD d

/-- `deleteDeep` on intermediate segments (`keys.pop()` has removed the last
one): walk, then `if (current && typeof current === 'object') delete
current[lastKey]`. -/
def delDeepGo (t : Value) (ks : List String) (lastKey : String) : Value :=
  match ks with
  | [] => if t.isObjLike then t.delProp lastKey else t
  | k :: rest =>
    if t.isObjLike then
      match t.getProp k with
      | some c => t.setProp k (delDeepGo c rest lastKey)
      | none => t
    else t

/-- `SessionStore.deleteDeep(obj, path)` (source lines 453–466). -/
def deleteDeep (t : Value) (path : String) : Value :=
  match (segments path).dropLast, (segments path).getLast (segments_ne_nil path) with
  | ks, lastKey => delDeepGo t ks lastKey

theorem lookupA_setA_same (k : String) (v : Value) (l : List (String × Value)) :
    lookupA k (setA k v l) = some v := by
  induction l with
  | nil => simp [setA, lookupA]
  | cons p rest ih =>
    obtain ⟨k', v'⟩ := p
    by_cases h : k' = k <;> simp [setA, lookupA, h, ih]

theorem getProp_setProp_same (v : Value) (k : String) (x : Value) (h : v.isObjLike) :
    (v.setProp k x).getProp k = some x := by
  cases v with
  | obj fields => simp [Value.setProp, Value.getProp, lookupA_setA_same]
  | arr elems props =>
    cases hidx : toIndex k with
    | none => simp [Value.setProp, Value.getProp, hidx, lookupA_setA_same]
    | some i =>
      rcases Nat.lt_trichotomy i elems.length with hlt | heq | hgt
      · simp [Value.setProp, Value.getProp, hidx, hlt,
          List.getElem?_set_eq_of_lt, Option.orElse]
      · simp [Value.setProp, Value.getProp, hidx, heq,
          List.getElem?_concat_length, Option.orElse]
      · have h1 : ¬ i < elems.length := by omega
        have h2 : i ≠ elems.length := by omega
        have h3 : elems[i]? = none := List.getElem?_eq_none (by omega)
        simp [Value.setProp, Value.getProp, hidx, h1, h2, h3, lookupA_setA_same, Option.orElse]
  | null => simp [Value.isObjLike] at h
  | bool b => simp [Value.isObjLike] at h
  | num n => simp [Value.isObjLike] at h
  | str s => simp [Value.isObjLike] at h

theorem isObjLike_setProp (v : Value) (k : String) (x : Value) (h : v.isObjLike) :
    (v.setProp k x).isObjLike := by
  cases v with
  | obj fields => rfl
  | arr elems props =>
    cases hidx : toIndex k with
    | none => simp [Value.setProp, hidx, Value.isObjLike]
    | some i =>
      by_cases h1 : i < elems.length
      · simp [Value.setProp, hidx, h1, Value.isObjLike]
      · by_cases h2 : i = elems.length <;>
          simp [Value.setProp, hidx, h1, h2, Value.isObjLike]
  | null => simp [Value.isObjLike] at h
  | bool b => simp [Value.isObjLike] at h
  | num n => simp [Value.isObjLike] at h
  | str s => simp [Value.isObjLike] at h

theorem isObjLike_coerceChild (o : Option Value) : (coerceChild o).isObjLike := by
  cases o with
  | none => rfl
  | some c =>
    show (if c.isObjLike then c else Value.obj []).isObjLike = true
    by_cases h : c.isObjLike
    · simp [h]
    · simp [h]; rfl

/-- One unfolding step of `getDeepGo` at a mapping/sequence node. -/
theorem getDeepGo_cons (t : Value) (k : String) (rest : List String) (ht : t.isObjLike) :
    getDeepGo t (k :: rest) =
      match t.getProp k with
      | some c => getDeepGo c rest
      | none => none := by
  simp [getDeepGo, ht]

/-- Key round-trip lemma: writing at a nonempty segment list and reading it
back through the same segments yields the written value, for any mapping- or
sequence-rooted tree. -/
theorem getDeepGo_setDeepGo : ∀ (ks : List String) (t x : Value),
    t.isObjLike → ks ≠ [] → getDeepGo (setDeepGo t ks x) ks = some x
  | [], _, _, _, h => absurd rfl h
  | [k], t, x, ht, _ => by
    rw [show setDeepGo t [k] x = t.setProp k x from rfl,
      getDeepGo_cons _ _ _ (isObjLike_setProp t k x ht),
      getProp_setProp_same t k x ht]
    rfl
  | k :: k' :: rest, t, x, ht, _ => by
    have hchild := isObjLike_coerceChild (t.getProp k)
    have hrec := getDeepGo_setDeepGo (k' :: rest) (coerceChild (t.getProp k)) x hchild (by simp)
    rw [show setDeepGo t (k :: k' :: rest) x
          = t.setProp k (setDeepGo (coerceChild (t.getProp k)) (k' :: rest) x) from rfl,
      getDeepGo_cons _ _ _ (isObjLike_setProp t k _ ht),
      getProp_setProp_same t k _ ht]
    exact hrec

/-- Hexadecimal digit for `\u00XX` escapes (lowercase, as `JSON.stringify`
emits). -/
def hexDigit (n : Nat) : Char :=
  if n < 10 then Char.ofNat (48 + n) else Char.ofNat (87 + n)

/-- Escaping of one character per `JSON.stringify` (ECMA `QuoteJSONString`):
quote, backslash, the named control escapes, `\u00XX` for the remaining
control characters, everything else verbatim. -/
def escapeChar (c : Char) : List Char :=
  if c = '"' then ['\\', '"']
  else if c = '\\' then ['\\', '\\']
  else if c.toNat = 8 then ['\\', 'b']
  else if c.toNat = 9 then ['\\', 't']
  else if c.toNat = 10 then ['\\', 'n']
  else if c.toNat = 12 then ['\\', 'f']
  else if c.toNat = 13 then ['\\', 'r']
  else if c.toNat < 32 then
    ['\\', 'u', '0', '0', hexDigit (c.toNat / 16), hexDigit (c.toNat % 16)]
  else [c]

/-- A JSON string literal for `s`. -/
def quoteStr (s : String) : String :=
  "\"" ++ String.mk (s.data.foldr (fun c acc => escapeChar c ++ acc) []) ++ "\""

mutual

/-- `JSON.stringify(v)` (as used by `validateSize`).  A JS array's
out-of-band string properties are ignored by `JSON.stringify`, hence `props`
is dropped.  (Lean counts code points where JS `.length` counts UTF-16 code
units; the claims only serialize ASCII data, where the two agree.) -/
def stringifyV : Value → String
  | .null => "null"
  | .bool true => "true"
  | .bool false => "false"
  | .num n => toString n
  | .str s => quoteStr s
  | .arr elems _ => "[" ++ String.intercalate "," (stringifyL elems) ++ "]"
  | .obj fields => "\x7b" ++ String.intercalate "," (stringifyP fields) ++ "\x7d"

def stringifyL : List Value → List String
  | [] => []
  | v :: vs => stringifyV v :: stringifyL vs

def stringifyP : List (String × Value) → List String
  | [] => []
  | (k, v) :: ps => (quoteStr k ++ ":" ++ stringifyV v) :: stringifyP ps

end

/-- `TTL_MS = 3600000` (1 hour). -/
def TTL_MS : Nat := 3600000

/-- `MAX_VALUE_SIZE_BYTES = 10 * 1024 * 1024`. -/
def MAX_VALUE_SIZE_BYTES : Nat := 10485760

/-- `MAX_STORE_SIZE_BYTES = 100 * 1024 * 1024` — declared in the source but
never read by any code path. -/
def MAX_STORE_SIZE_BYTES : Nat := 104857600

/-- `JSON.stringify(value).length`. -/
def valueSize (v : Value) : Nat := (stringifyV v).length

/-- `validateSize` succeeds iff the serialized size does not exceed the
per-value ceiling (the source throws when `size > MAX_VALUE_SIZE_BYTES`). -/
def sizeOk (v : Value) : Bool := decide (valueSize v ≤ MAX_VALUE_SIZE_BYTES)

/-- Skip JSON whitespace. -/
def skipWs : List Char → List Char
  | [] => []
  | c :: cs => if c = ' ' ∨ c = '\t' ∨ c = '\n' ∨ c = '\r' then skipWs cs else c :: cs

/-- Hex digit value, for `\uXXXX` escapes. -/
def hexVal (c : Char) : Option Nat :=
  if '0' ≤ c ∧ c ≤ '9' then some (c.toNat - 48)
  else if 'a' ≤ c ∧ c ≤ 'f' then some (c.toNat - 87)
  else if 'A' ≤ c ∧ c ≤ 'F' then some (c.toNat - 55)
  else none

/-- Body of a JSON string literal (after the opening quote): characters up
to the closing quote, with escape sequences.  Deliberately lenient (unknown
escapes and raw control characters are accepted) so that it never rejects a
string `JSON.parse` would accept. -/
def parseStrBody : Nat → List Char → Option (List Char × List Char)
  | 0, _ => none
  | _ + 1, [] => none
  | fuel + 1, c :: rest =>
    if c = '"' then some ([], rest)
    else if c = '\\' then
      match rest with
      | [] => none
      | e :: rest2 =>
        if e = 'u' then
          match rest2 with
          | h1 :: h2 :: h3 :: h4 :: rest3 =>
            match hexVal h1, hexVal h2, hexVal h3, hexVal h4 with
            | some a, some b, some c', some d =>
              (parseStrBody fuel rest3).map fun (body, rem) =>
                (Char.ofNat (((a * 16 + b) * 16 + c') * 16 + d) :: body, rem)
            | _, _, _, _ => none
          | _ => none
        else
          let ch := if e = 'b' then Char.ofNat 8
            else if e = 't' then Char.ofNat 9
            else if e = 'n' then Char.ofNat 10
            else if e = 'f' then Char.ofNat 12
            else if e = 'r' then Char.ofNat 13
            else e
          (parseStrBody fuel rest2).map fun (body, rem) => (ch :: body, rem)
    else (parseStrBody fuel rest).map fun (body, rem) => (c :: body, rem)

/-- Characters that may occur inside a numeric token after its first
character. -/
def isNumCont (c : Char) : Bool :=
  c.isDigit || c = '.' || c = 'e' || c = 'E' || c = '+' || c = '-'

/-- Split a numeric token: leading integral digits, then the (ignored)
fraction/exponent tail.  JS numbers are doubles; this embedding keeps the
integral part (the claims only exercise integral numbers). -/
def takeDigits : List Char → List Char × List Char
  | [] => ([], [])
  | c :: cs =>
    if c.isDigit then
      let (ds, rest) := takeDigits cs
      (c :: ds, rest)
    else ([], c :: cs)

def dropNumTail : List Char → List Char
  | [] => []
  | c :: cs => if isNumCont c then dropNumTail cs else c :: cs

mutual

/-- Lenient model of `JSON.parse` on a character list: returns the parsed
value and the unconsumed suffix, or `none` on malformed input.  It accepts a
superset of what `JSON.parse` accepts (e.g. leading zeros, unknown escapes),
so `parseJson s = none` implies `JSON.parse(s)` throws. -/
def parseVal : Nat → List Char → Option (Value × List Char)
  | 0, _ => none
  | fuel + 1, cs =>
    match skipWs cs with
    | [] => none
    | c :: rest =>
      if c = 'n' then
        match rest with
        | 'u' :: 'l' :: 'l' :: rest' => some (Value.null, rest')
        | _ => none
      else if c = 't' then
        match rest with
        | 'r' :: 'u' :: 'e' :: rest' => some (Value.bool true, rest')
        | _ => none
      else if c = 'f' then
        match rest with
        | 'a' :: 'l' :: 's' :: 'e' :: rest' => some (Value.bool false, rest')
        | _ => none
      else if c = '"' then
        (parseStrBody (fuel + 1) rest).map fun (body, rem) => (Value.str (String.mk body), rem)
      else if c = '[' then
        match skipWs rest with
        | ']' :: rest' => some (Value.arr [] [], rest')
        | cs' => (parseArrItems fuel cs').map fun (vs, rem) => (Value.arr vs [], rem)
      else if c = Char.ofNat 123 then
        match skipWs rest with
        | c' :: rest' =>
          if c' = Char.ofNat 125 then some (Value.obj [], rest')
          else (parseObjItems fuel (c' :: rest')).map fun (ps, rem) => (Value.obj ps, rem)
        | [] => none
      else if c = '-' then
        match takeDigits rest with
        | ([], _) => none
        | (ds, rest') => some (Value.num (-(digitsToNat ds 0 : Int)), dropNumTail rest')
      else if c.isDigit then
        match takeDigits (c :: rest) with
        | ([], _) => none
        | (ds, rest') => some (Value.num (digitsToNat ds 0 : Int), dropNumTail rest')
      else none

/-- One or more comma-separated array items, then `]`. -/
def parseArrItems : Nat → List Char → Option (List Value × List Char)
  | 0, _ => none
  | fuel + 1, cs =>
    match parseVal fuel cs with
    | none => none
    | some (v, rem) =>
      match skipWs rem with
      | ',' :: rem' =>
        (parseArrItems fuel rem').map fun (vs, rem'') => (v :: vs, rem'')
      | ']' :: rem' => some ([v], rem')
      | _ => none

/-- One or more comma-separated `"key": value` members, then `}`. -/
def parseObjItems : Nat → List Char → Option (List (String × Value) × List Char)
  | 0, _ => none
  | fuel + 1, cs =>
    match skipWs cs with
    | '"' :: rest =>
      match parseStrBody (fuel + 1) rest with
      | none => none
      | some (key, rem) =>
        match skipWs rem with
        | ':' :: rem' =>
          match parseVal fuel rem' with
          | none => none
          | some (v, rem'') =>
            match skipWs rem'' with
            | ',' :: rem3 =>
              (parseObjItems fuel rem3).map fun (ps, rem4) => ((String.mk key, v) :: ps, rem4)
            | c :: rem3 =>
              if c = Char.ofNat 125 then some ([(String.mk key, v)], rem3) else none
            | [] => none
        | _ => none
    | _ => none

end

/-- Model of `JSON.parse(s)`: `none` when the source would throw a
`SyntaxError`. -/
def parseJson (s : String) : Option Value :=
  match parseVal (2 * s.data.length + 4) s.data with
  | some (v, rem) => if skipWs rem = [] then some v else none
  | none => none

/-- `IStoreEntry`: one scope entry — a tree plus its last-touched
timestamp (`Date.now()` milliseconds, embedded as `Nat`). -/
structure StoreEntry where
  data : Value
  timestamp : Nat
  deriving DecidableEq

/-- An `IStoreCollection` (JS object keyed by scope id, keys unique) as a
partial map. -/
def StoreMap : Type := String → Option StoreEntry

/-- The three static partitions of `SessionStore`. -/
structure Stores where
  executionStore : StoreMap
  workflowStore : StoreMap
  globalStore : StoreEntry

/-- Write one entry of a partition. -/
def setMap (m : StoreMap) (id : String) (e : StoreEntry) : StoreMap :=
  fun id' => if id' = id then some e else m id'

/-- One sweep of a partition: delete every entry with
`now - timestamp > TTL_MS`. -/
def gcMap (now : Nat) (m : StoreMap) : StoreMap := fun id =>
  match m id with
  | some e => if now - e.timestamp > TTL_MS then none else some e
  | none => none

/-- `SessionStore.runGarbageCollection` (source lines 405–419): sweeps the
execution and workflow partitions; the global entry is not touched. -/
def runGarbageCollection (now : Nat) (st : Stores) : Stores :=
  { st with
    executionStore := gcMap now st.executionStore
    workflowStore := gcMap now st.workflowStore }

/-- The `scope` parameter. -/
inductive Scope where
  | execution | workflow | global
  deriving DecidableEq

def Scope.name : Scope → String
  | .execution => "execution"
  | .workflow => "workflow"
  | .global => "global"

/-- The `operation` parameter (`exists` is spelled `checkExists` here, the
word being reserved in Lean). -/
inductive Operation where
  | set | get | getAll | checkExists | increment | decrement
  | push | pop | shift | unshift | remove | clear
  deriving DecidableEq

/-- The `setMode` parameter (`auto` = always, `nx` = if-absent, `xx` =
if-present). -/
inductive SetMode where
  | auto | nx | xx
  deriving DecidableEq

/-- The `type` / `valueType` parameter of set assignments and push/unshift. -/
inductive ValType where
  | string | number | boolean | array | object
  deriving DecidableEq

/-- The `clearTarget` parameter. -/
inductive ClearTarget where
  | key | all
  deriving DecidableEq

/-- A `json`-typed node parameter as handed over by the host: either still a
raw string (the usual case, to be `JSON.parse`d) or an already-structured
value (the source checks `typeof === 'string'` before parsing). -/
inductive JsonParam where
  | raw (s : String)
  | val (v : Value)
  deriving DecidableEq

/-- One entry of the `assignments.values` collection of the set operation. -/
structure Assignment where
  key : String
  type : ValType
  valueString : String := ""
  valueNumber : Int := 0
  valueBoolean : Bool := false
  valueArray : JsonParam := JsonParam.raw "[]"
  valueObject : JsonParam := JsonParam.raw "\x7b\x7d"
  deriving DecidableEq

/-- The per-item node parameters an invocation can read (each operation uses
the fields it declares; the host supplies defaults for the rest). -/
structure ItemParams where
  assignments : List Assignment := []
  setMode : SetMode := SetMode.auto
  key : String := ""
  amount : Int := 1
  valueType : ValType := ValType.string
  value : JsonParam := JsonParam.val (Value.str "")
  clearTarget : ClearTarget := ClearTarget.key
  deriving DecidableEq

/-- The errors the engine can throw while processing one item. -/
inductive ExecErr where
  | sizeLimit (key : String)
  | notArray (key : String)
  | notArrayOrMissing (key : String)
  | jsonSyntax
  deriving DecidableEq

instance {ε α : Type} [DecidableEq ε] [DecidableEq α] : DecidableEq (Except ε α) :=
  fun a b =>
    match a, b with
    | .ok x, .ok y =>
      if h : x = y then isTrue (by rw [h]) else isFalse (fun he => h (by cases he; rfl))
    | .error x, .error y =>
      if h : x = y then isTrue (by rw [h]) else isFalse (fun he => h (by cases he; rfl))
    | .ok _, .error _ => isFalse (fun h => Except.noConfusion h)
    | .error _, .ok _ => isFalse (fun h => Except.noConfusion h)

/-- The thrown error's `message` (the `jsonSyntax` text is engine-dependent
in JS; a fixed representative is used). -/
def errMessage : ExecErr → String
  | .sizeLimit k => "Value for \"" ++ k ++ "\" exceeds size limit of 10MB"
  | .notArray k => "Key \"" ++ k ++ "\" is not an array"
  | .notArrayOrMissing k => "Key \"" ++ k ++ "\" is not an array or does not exist"
  | .jsonSyntax => "Unexpected token in JSON"

/-- `finalValue` of one set assignment (source lines 521–531).  Note the
`JSON.parse` here is NOT wrapped in try/catch: a malformed raw string throws
(`jsonSyntax`). -/
def decodeAssignment (a : Assignment) : Except ExecErr Value :=
  match a.type with
  | .string => .ok (.str a.valueString)
  | .number => .ok (.num a.valueNumber)
  | .boolean => .ok (.bool a.valueBoolean)
  | .array =>
    match a.valueArray with
    | .raw s =>
      match parseJson s with
      | some v => .ok v
      | none => .error .jsonSyntax
    | .val v => .ok v
  | .object =>
    match a.valueObject with
    | .raw s =>
      match parseJson s with
      | some v => .ok v
      | none => .error .jsonSyntax
    | .val v => .ok v

/-- The push/unshift `value` parameter (source lines 604–608): for
array/object value types a raw string is `JSON.parse`d inside a
try/catch — on failure the raw string itself is kept. -/
def decodePushValue (vt : ValType) (p : JsonParam) : Value :=
  match p with
  | .val v => v
  | .raw s =>
    if vt = ValType.array ∨ vt = ValType.object then
      match parseJson s with
      | some v => v
      | none => .str s
    else .str s

/-- Processing of one set assignment against the live tree (source lines
518–546): decode, `validateSize`, existence check, conditional write. -/
def setStep (mode : SetMode) (sess : Value) (results : List (String × Value))
    (a : Assignment) : Except ExecErr (Value × List (String × Value)) :=
  match decodeAssignment a with
  | .error e => .error e
  | .ok finalValue =>
    if sizeOk finalValue then
      let ex := (getDeep sess a.key).isSome
      let shouldSet :=
        match mode with
        | .auto => true
        | .nx => !ex
        | .xx => ex
      if shouldSet then .ok (setDeep sess a.key finalValue, setA a.key finalValue results)
      else .ok (sess, results)
    else .error (.sizeLimit a.key)

/-- The assignment loop of the set operation.  A failing assignment throws,
keeping the mutations of the earlier assignments of the same item. -/
def runSet (mode : SetMode) :
    Value → List (String × Value) → List Assignment →
      Value × List (String × Value) × Option ExecErr
  | sess, res, [] => (sess, res, none)
  | sess, res, a :: rest =>
    match setStep mode sess res a with
    | .error e => (sess, res, some e)
    | .ok (sess', res') => runSet mode sess' res' rest

/-- The final segment of a key (`key.split('.').pop()`). -/
def lastSeg (key : String) : String :=
  (segments key).getLast (segments_ne_nil key)

/-- One item of the dispatch loop (source lines 505–652): returns the tree
after the item, whether the item replaced the entry's tree with a fresh
empty mapping (scope-wide clear), and the item's result record or thrown
error.  A `get` whose resolved value is `undefined` produces `{ [seg]:
undefined }` in JS, which serializes to an empty mapping; it is modelled as
the empty mapping directly. -/
def execItem (scopeName : String) (op : Operation) (p : ItemParams) (sess : Value) :
    Value × Bool × Except ExecErr Value :=
  match op with
  | .set =>
    match runSet p.setMode sess [] p.assignments with
    | (sess', _, some e) => (sess', false, .error e)
    | (sess', results, none) =>
      (sess', false, .ok (.obj
        [("success", .bool true), ("op", .str "set"), ("updates", .obj results)]))
  | .get =>
    (sess, false, .ok (match getDeep sess p.key with
      | some v => if v.isObjLike then v else .obj [(lastSeg p.key, v)]
      | none => .obj []))
  | .checkExists =>
    (sess, false, .ok (.obj
      [("key", .str p.key), ("exists", .bool (getDeep sess p.key).isSome)]))
  | .getAll => (sess, false, .ok sess)
  | .increment =>
    let cur : Int := match getDeepD sess p.key (Value.num 0) with | .num n => n | _ => 0
    let newVal := cur + p.amount
    (setDeep sess p.key (.num newVal), false, .ok (.obj
      [("key", .str p.key), ("oldValue", .num cur), ("newValue", .num newVal),
       ("op", .str "increment")]))
  | .decrement =>
    let cur : Int := match getDeepD sess p.key (Value.num 0) with | .num n => n | _ => 0
    let newVal := cur - p.amount
    (setDeep sess p.key (.num newVal), false, .ok (.obj
      [("key", .str p.key), ("oldValue", .num cur), ("newValue", .num newVal),
       ("op", .str "decrement")]))
  | .push =>
    let v := decodePushValue p.valueType p.value
    match (getDeep sess p.key).getD (Value.arr [] []) with
    | .arr elems props =>
      if sizeOk v then
        let elems' := elems ++ [v]
        (setDeep sess p.key (.arr elems' props), false, .ok (.obj
          [("success", .bool true), ("key", .str p.key),
           ("length", .num (elems'.length : Int)), ("op", .str "push")]))
      else (sess, false, .error (.sizeLimit p.key))
    | _ => (sess, false, .error (.notArray p.key))
  | .unshift =>
    let v := decodePushValue p.valueType p.value
    match (getDeep sess p.key).getD (Value.arr [] []) with
    | .arr elems props =>
      if sizeOk v then
        let elems' := v :: elems
        (setDeep sess p.key (.arr elems' props), false, .ok (.obj
          [("success", .bool true), ("key", .str p.key),
           ("length", .num (elems'.length : Int)), ("op", .str "unshift")]))
      else (sess, false, .error (.sizeLimit p.key))
    | _ => (sess, false, .error (.notArray p.key))
  | .pop =>
    match getDeep sess p.key with
    | some (.arr elems props) =>
      let item := elems.getLast?
      let elems' := elems.dropLast
      (setDeep sess p.key (.arr elems' props), false, .ok (.obj
        ([("success", .bool true), ("key", .str p.key)]
          ++ (match item with | some it => [("value", it)] | none => [])
          ++ [("length", .num (elems'.length : Int)), ("op", .str "pop")])))
    | _ => (sess, false, .error (.notArrayOrMissing p.key))
  | .shift =>
    match getDeep sess p.key with
    | some (.arr elems props) =>
      let item := elems.head?
      let elems' := elems.tail
      (setDeep sess p.key (.arr elems' props), false, .ok (.obj
        ([("success", .bool true), ("key", .str p.key)]
          ++ (match item with | some it => [("value", it)] | none => [])
          ++ [("length", .num (elems'.length : Int)), ("op", .str "shift")])))
    | _ => (sess, false, .error (.notArrayOrMissing p.key))
  | .remove =>
    (deleteDeep sess p.key, false, .ok (.obj
      [("success", .bool true), ("key", .str p.key), ("op", .str "remove")]))
  | .clear =>
    match p.clearTarget with
    | .all =>
      (sess, true, .ok (.obj
        [("success", .bool true), ("op", .str "clear_all"), ("scope", .str scopeName)]))
    | .key =>
      if p.key ≠ "" then
        (deleteDeep sess p.key, false, .ok (.obj
          [("success", .bool true), ("key", .str p.key), ("op", .str "clear_key")]))
      else (sess, false, .ok (.obj []))

/-- The loop state over a batch: the tree the captured `sessionRef` points
to, whether some item executed a scope-wide clear (which replaces the
entry's `data` with a fresh tree but leaves `sessionRef` on the old one),
and the result records so far. -/
structure LoopState where
  sess : Value
  cleared : Bool
  records : List Value
  deriving DecidableEq

/-- The per-item dispatch loop with the host's partial-failure policy: with
`continueOnFail` a thrown error becomes an `{ error }` record and processing
continues; otherwise it aborts the batch (keeping the mutations already
applied, since they happened in place). -/
def execLoop (scopeName : String) (op : Operation) (cof : Bool) :
    LoopState → List ItemParams → LoopState × Option ExecErr
  | st, [] => (st, none)
  | st, p :: rest =>
    match execItem scopeName op p st.sess with
    | (sess', didClear, .ok r) =>
      execLoop scopeName op cof
        ⟨sess', st.cleared || didClear, st.records ++ [r]⟩ rest
    | (sess', didClear, .error e) =>
      if cof then
        execLoop scopeName op cof
          ⟨sess', st.cleared || didClear,
            st.records ++ [.obj [("error", .str (errMessage e))]]⟩ rest
      else (⟨sess', st.cleared || didClear, st.records⟩, some e)

/-- `SessionStore.execute` (source lines 468–669): garbage-collect, resolve
the scope entry (creating it if needed), stamp its timestamp, run the batch
against the captured tree, and write the entry back (a scope-wide clear
leaves a fresh empty mapping as the entry's tree regardless of later
in-batch mutations of the stale reference).  On an aborting error the store
keeps all mutations applied up to the throw. -/
def execute (st : Stores) (now : Nat) (executionId workflowId : String)
    (scope : Scope) (op : Operation) (params : List ItemParams) (cof : Bool) :
    Stores × Except ExecErr (List Value) :=
  let st1 := runGarbageCollection now st
  let entry : StoreEntry :=
    match scope with
    | .global => st1.globalStore
    | .workflow => (st1.workflowStore workflowId).getD ⟨Value.obj [], now⟩
    | .execution => (st1.executionStore executionId).getD ⟨Value.obj [], now⟩
  let (final, err) := execLoop scope.name op cof ⟨entry.data, false, []⟩ params
  let entry' : StoreEntry := ⟨if final.cleared then Value.obj [] else final.sess, now⟩
  let st2 : Stores :=
    match scope with
    | .global => { st1 with globalStore := entry' }
    | .workflow => { st1 with workflowStore := setMap st1.workflowStore workflowId entry' }
    | .execution => { st1 with executionStore := setMap st1.executionStore executionId entry' }
  match err with
  | some e => (st2, .error e)
  | none => (st2, .ok final.records)

/-- Does a result record (when it is a mapping) contain the given field? -/
def hasField (v : Value) (k : String) : Bool :=
  match v with
  | .obj fields => (lookupA k fields).isSome
  | _ => false

/-- Round trip at a mapping-rooted tree, stated on string paths. -/
theorem getDeep_setDeep_obj (fs : List (String × Value)) (p : String) (v : Value) :
    getDeep (setDeep (Value.obj fs) p v) p = some v :=
  getDeepGo_setDeepGo (segments p) (Value.obj fs) v rfl (segments_ne_nil p)

/-- C1: for every path `p` and JSON-like value `v`, `set(p, v)` followed by
`get(p)` on the same (mapping-rooted) tree returns a value deep-equal to
`v`, including dotted paths whose intermediate mappings must be
auto-created. -/
theorem C1_set_get_roundtrip (fs : List (String × Value)) (p : String) (v : Value) :
    getDeep (setDeep (Value.obj fs) p v) p = some v :=
  getDeepGo_setDeepGo (segments p) (Value.obj fs) v rfl (segments_ne_nil p)

/-- The amended behaviour of `setDeep`'s intermediate-segment walk, stated
from the spec's words with the one correction the counterexample forces: a
missing, `null` or scalar value at an intermediate segment is replaced by a
fresh empty mapping, but a mapping or a *sequence* is descended into
unchanged (a sequence blocking the path is NOT overwritten; the remainder of
the path lands in its non-index properties). -/
def setDeepAmendedSpec (t : Value) : List String → Value → Value
  | [], _ => t
  | [k], x => t.setProp k x
  | k :: k' :: rest, x =>
    let child : Value :=
      match t.getProp k with
      | none => Value.obj []
      | some (Value.obj fs) => Value.obj fs
      | some (Value.arr es ps) => Value.arr es ps
      | some _ => Value.obj []
    t.setProp k (setDeepAmendedSpec child (k' :: rest) x)

theorem coerceChild_eq_amended (o : Option Value) :
    coerceChild o =
      match o with
      | none => Value.obj []
      | some (Value.obj fs) => Value.obj fs
      | some (Value.arr es ps) => Value.arr es ps
      | some _ => Value.obj [] := by
  cases o with
  | none => rfl
  | some c => cases c <;> rfl

/-- C10 counterexample: a sequence blocking the path is not overwritten by
an empty mapping — `setDeep` descends into the array and attaches the rest
of the path as a non-index property. -/
theorem C10_counterexample :
    setDeep (Value.obj [("a", Value.arr [Value.num 1] [])]) "a.b" (Value.num 2)
        = Value.obj [("a", Value.arr [Value.num 1] [("b", Value.num 2)])] ∧
      setDeep (Value.obj [("a", Value.arr [Value.num 1] [])]) "a.b" (Value.num 2)
        ≠ Value.obj [("a", Value.obj [("b", Value.num 2)])] := by
  decide

/-- C10 (amended): `set` walks all but the last segment, replacing a
missing, `null` or scalar intermediate value by an empty mapping and
descending unchanged into mappings and sequences, then assigns the value at
the final segment; it always succeeds (total), and on a mapping-rooted tree
the assigned value is readable back at the path. -/
theorem C10_setDeep_amended :
    (∀ (t : Value) (ks : List String) (x : Value),
        setDeepGo t ks x = setDeepAmendedSpec t ks x) ∧
      (∀ (fs : List (String × Value)) (p : String) (x : Value),
        getDeep (setDeep (Value.obj fs) p x) p = some x) := by
  constructor
  · intro t ks x
    induction ks generalizing t with
    | nil => rfl
    | cons k rest ih =>
      cases rest with
      | nil => rfl
      | cons k' rest' =>
        show Value.setProp t k (setDeepGo (coerceChild (t.getProp k)) (k' :: rest') x)
          = setDeepAmendedSpec t (k :: k' :: rest') x
        rw [ih, coerceChild_eq_amended]
        rfl
  · exact fun fs p x => getDeepGo_setDeepGo (segments p) (Value.obj fs) x rfl (segments_ne_nil p)

/-- A set invocation carrying a single number-typed assignment (the shape
the conditional-set claims exercise). -/
def doCondSet (m : SetMode) (k : String) (n : Int) (s : Value) : Value :=
  (execItem "execution" Operation.set
    { assignments := [{ key := k, type := ValType.number, valueNumber := n }],
      setMode := m } s).1

/-- C2: `always` writes unconditionally; `if-absent` (nx) writes iff
`get(path)` is currently undefined; `if-present` (xx) writes iff it is
currently defined — in the no-write cases the tree is left entirely
unchanged. -/
theorem C2_conditional_set (fs : List (String × Value)) (k : String) (n : Int) (w : Value)
    (hsize : sizeOk (Value.num n) = true) :
    (getDeep (doCondSet SetMode.auto k n (Value.obj fs)) k = some (Value.num n)) ∧
    (getDeep (Value.obj fs) k = none →
      getDeep (doCondSet SetMode.nx k n (Value.obj fs)) k = some (Value.num n)) ∧
    (getDeep (Value.obj fs) k = some w →
      doCondSet SetMode.nx k n (Value.obj fs) = Value.obj fs) ∧
    (getDeep (Value.obj fs) k = some w →
      getDeep (doCondSet SetMode.xx k n (Value.obj fs)) k = some (Value.num n)) ∧
    (getDeep (Value.obj fs) k = none →
      doCondSet SetMode.xx k n (Value.obj fs) = Value.obj fs) := by
  refine ⟨?_, fun h => ?_, fun h => ?_, fun h => ?_, fun h => ?_⟩
  · simp [doCondSet, execItem, runSet, setStep, decodeAssignment, hsize, getDeep_setDeep_obj]
  · simp [doCondSet, execItem, runSet, setStep, decodeAssignment, hsize, h, getDeep_setDeep_obj]
  · simp [doCondSet, execItem, runSet, setStep, decodeAssignment, hsize, h, getDeep_setDeep_obj]
  · simp [doCondSet, execItem, runSet, setStep, decodeAssignment, hsize, h, getDeep_setDeep_obj]
  · simp [doCondSet, execItem, runSet, setStep, decodeAssignment, hsize, h, getDeep_setDeep_obj]

theorem C2_witness :
    getDeep (doCondSet SetMode.auto "k" 2 (Value.obj [])) "k" = some (Value.num 2) ∧
    doCondSet SetMode.nx "k" 2 (Value.obj [("k", Value.num 1)]) = Value.obj [("k", Value.num 1)] ∧
    getDeep (doCondSet SetMode.xx "k" 2 (Value.obj [("k", Value.num 1)])) "k"
      = some (Value.num 2) ∧
    getDeep (doCondSet SetMode.nx "m" 1 (Value.obj [])) "m" = some (Value.num 1) :=
  ⟨(C2_conditional_set [] "k" 2 (Value.num 0) (by decide)).1,
   (C2_conditional_set [("k", Value.num 1)] "k" 2 (Value.num 1) (by decide)).2.2.1 (by decide),
   (C2_conditional_set [("k", Value.num 1)] "k" 2 (Value.num 1) (by decide)).2.2.2.1 (by decide),
   (C2_conditional_set [] "m" 1 (Value.num 0) (by decide)).2.1 (by decide)⟩

/-- C3: no failing write partially applies — a set assignment rejected for
size (or a failed decode) contributes nothing to the tree; a push/unshift
that throws (`NotArrayError` or `SizeLimitExceeded`) leaves the tree
exactly as it was. -/
theorem C3_failed_write_not_applied :
    (∀ (mode : SetMode) (sess : Value) (res : List (String × Value)) (a : Assignment)
        (rest : List Assignment) (e : ExecErr),
      setStep mode sess res a = .error e →
        runSet mode sess res (a :: rest) = (sess, res, some e)) ∧
    (∀ (mode : SetMode) (sess : Value) (res : List (String × Value)) (a : Assignment)
        (v : Value),
      decodeAssignment a = .ok v → sizeOk v = false →
        setStep mode sess res a = .error (.sizeLimit a.key)) ∧
    (∀ (s : String) (p : ItemParams) (sess : Value) (e : ExecErr),
      (execItem s Operation.push p sess).2.2 = .error e →
        (execItem s Operation.push p sess).1 = sess) ∧
    (∀ (s : String) (p : ItemParams) (sess : Value) (e : ExecErr),
      (execItem s Operation.unshift p sess).2.2 = .error e →
        (execItem s Operation.unshift p sess).1 = sess) ∧
    (∀ (s : String) (p : ItemParams) (sess : Value) (w : Value),
      getDeep sess p.key = some w → w.isArr = false →
        execItem s Operation.push p sess = (sess, false, .error (.notArray p.key))) ∧
    (∀ (s : String) (p : ItemParams) (sess : Value) (elems : List Value)
        (props : List (String × Value)),
      (getDeep sess p.key).getD (Value.arr [] []) = Value.arr elems props →
        sizeOk (decodePushValue p.valueType p.value) = false →
          execItem s Operation.push p sess = (sess, false, .error (.sizeLimit p.key))) := by
  refine ⟨?_, ?_, ?_, ?_, ?_, ?_⟩
  · intro mode sess res a rest e h
    simp [runSet, h]
  · intro mode sess res a v hdec hsz
    simp [setStep, hdec, hsz]
  · intro s p sess e herr
    revert herr
    simp only [execItem]
    cases hg : (getDeep sess p.key).getD (Value.arr [] []) with
    | arr elems props =>
      by_cases hs : sizeOk (decodePushValue p.valueType p.value) <;> simp [hs]
    | null => simp
    | bool b => simp
    | num n => simp
    | str s' => simp
    | obj fields => simp
  · intro s p sess e herr
    revert herr
    simp only [execItem]
    cases hg : (getDeep sess p.key).getD (Value.arr [] []) with
    | arr elems props =>
      by_cases hs : sizeOk (decodePushValue p.valueType p.value) <;> simp [hs]
    | null => simp
    | bool b => simp
    | num n => simp
    | str s' => simp
    | obj fields => simp
  · intro s p sess w hg hw
    have hgd : (getDeep sess p.key).getD (Value.arr [] []) = w := by rw [hg]; rfl
    simp only [execItem, hgd]
    cases w with
    | arr elems props => simp [Value.isArr] at hw
    | null => rfl
    | bool b => rfl
    | num n => rfl
    | str s' => rfl
    | obj fields => rfl
  · intro s p sess elems props hg hsz
    simp [execItem, hg, hsz]

theorem escapeChar_a : escapeChar 'a' = ['a'] := by decide

theorem foldr_escape_replicate (n : Nat) :
    (List.replicate n 'a').foldr (fun c acc => escapeChar c ++ acc) []
      = List.replicate n 'a' := by
  induction n with
  | zero => rfl
  | succ m ih => simp [List.replicate_succ, escapeChar_a, ih]

/-- A string of `n` letters `a` serializes to `n + 2` characters (the two
quotes). -/
theorem valueSize_replicate_str (n : Nat) :
    valueSize (Value.str (String.mk (List.replicate n 'a'))) = n + 2 := by
  show (quoteStr (String.mk (List.replicate n 'a'))).length = n + 2
  unfold quoteStr
  rw [show (String.mk (List.replicate n 'a')).data = List.replicate n 'a' from rfl,
    foldr_escape_replicate]
  rw [String.length_append, String.length_append]
  have h1 : ("\"" : String).length = 1 := rfl
  have h2 : (String.mk (List.replicate n 'a')).length = n := by
    show (List.replicate n 'a').length = n
    simp
  rw [h1, h2]
  omega

/-- A value one byte over the 10 MiB ceiling. -/
def bigStr : String := String.mk (List.replicate 10485759 'a')

theorem sizeOk_bigStr : sizeOk (Value.str bigStr) = false := by
  show decide
      (valueSize (Value.str (String.mk (List.replicate 10485759 'a')))
        ≤ MAX_VALUE_SIZE_BYTES) = false
  rw [valueSize_replicate_str]
  rfl

theorem C3_witness :
    execItem "execution" Operation.push
        { key := "k", valueType := ValType.number, value := JsonParam.val (Value.num 1) }
        (Value.obj [("k", Value.num 3)])
      = (Value.obj [("k", Value.num 3)], false, .error (.notArray "k")) ∧
    runSet SetMode.auto (Value.obj []) []
        [{ key := "k", type := ValType.string, valueString := bigStr }]
      = (Value.obj [], [], some (.sizeLimit "k")) ∧
    execItem "execution" Operation.push
        { key := "q", valueType := ValType.string, value := JsonParam.val (Value.str bigStr) }
        (Value.obj [])
      = (Value.obj [], false, .error (.sizeLimit "q")) :=
  ⟨C3_failed_write_not_applied.2.2.2.2.1 "execution"
      { key := "k", valueType := ValType.number, value := JsonParam.val (Value.num 1) }
      (Value.obj [("k", Value.num 3)]) (Value.num 3) (by decide) (by decide),
   C3_failed_write_not_applied.1 SetMode.auto (Value.obj []) []
      { key := "k", type := ValType.string, valueString := bigStr } []
      (.sizeLimit "k")
      (C3_failed_write_not_applied.2.1 SetMode.auto (Value.obj []) []
        { key := "k", type := ValType.string, valueString := bigStr }
        (Value.str bigStr) rfl sizeOk_bigStr),
   C3_failed_write_not_applied.2.2.2.2.2 "execution"
      { key := "q", valueType := ValType.string, value := JsonParam.val (Value.str bigStr) }
      (Value.obj []) [] [] (by decide) sizeOk_bigStr⟩

/-- Survival of a partition entry under one sweep. -/
theorem gcMap_some (now : Nat) (m : StoreMap) (id : String) (e : StoreEntry) :
    gcMap now m id = some e ↔ (m id = some e ∧ now - e.timestamp ≤ TTL_MS) := by
  unfold gcMap
  cases h : m id with
  | none => simp
  | some e' =>
    by_cases httl : now - e'.timestamp > TTL_MS
    · simp only [httl, if_pos]
      constructor
      · intro hf; exact absurd hf (by simp)
      · rintro ⟨he, hle⟩
        cases he
        omega
    · simp only [httl, if_neg, if_false]
      constructor
      · intro he
        cases he
        exact ⟨rfl, by omega⟩
      · rintro ⟨he, _⟩
        cases he
        rfl

/-- C4: after one sweep at time `now`, the global entry is untouched, and
an entry of the execution or workflow partition survives the sweep iff it was
present before and its age `now - lastTouched` does not strictly exceed the
TTL (so an entry touched at the boundary survives, and every survivor has
age ≤ TTL). -/
theorem C4_gc_ttl (now : Nat) (st : Stores) :
    (runGarbageCollection now st).globalStore = st.globalStore ∧
    (∀ (id : String) (e : StoreEntry),
      (runGarbageCollection now st).executionStore id = some e ↔
        (st.executionStore id = some e ∧ now - e.timestamp ≤ TTL_MS)) ∧
    (∀ (id : String) (e : StoreEntry),
      (runGarbageCollection now st).workflowStore id = some e ↔
        (st.workflowStore id = some e ∧ now - e.timestamp ≤ TTL_MS)) :=
  ⟨rfl,
   fun id e => gcMap_some now st.executionStore id e,
   fun id e => gcMap_some now st.workflowStore id e⟩

/-- Round trip at any mapping/sequence-rooted tree, on string paths. -/
theorem getDeep_setDeep (t : Value) (ht : t.isObjLike = true) (p : String) (v : Value) :
    getDeep (setDeep t p v) p = some v :=
  getDeepGo_setDeepGo (segments p) t v ht (segments_ne_nil p)

/-- Reads on the empty mapping always miss. -/
theorem getDeep_empty (k : String) : getDeep (Value.obj []) k = none := by
  unfold getDeep
  cases h : segments k with
  | nil => exact absurd h (segments_ne_nil k)
  | cons a b => simp [getDeepGo, Value.getProp, lookupA, Value.isObjLike]

/-- The set invocation used by the cross-scope claims: one item assigning
the number `n` at key `k` in always-mode. -/
def setInvocation (k : String) (n : Int) : List ItemParams :=
  [{ assignments := [{ key := k, type := ValType.number, valueNumber := n }] }]

/-- One always-mode number assignment against a tree. -/
theorem execItem_set_num (s k : String) (n : Int) (t : Value)
    (hsize : sizeOk (Value.num n) = true) :
    execItem s Operation.set
        { assignments := [{ key := k, type := ValType.number, valueNumber := n }] } t
      = (setDeep t k (Value.num n), false,
          .ok (.obj [("success", .bool true), ("op", .str "set"),
            ("updates", .obj [(k, Value.num n)])])) := by
  simp [execItem, runSet, setStep, decodeAssignment, hsize, setA]

/-- An execution-scoped single-item invocation whose item succeeds:
characterization of the whole `execute` step. -/
theorem execute_one_exec (st : Stores) (now : Nat) (eid wid : String) (op : Operation)
    (p : ItemParams) (sess' : Value) (dc : Bool) (r : Value)
    (h : execItem "execution" op p
        ((gcMap now st.executionStore eid).getD ⟨Value.obj [], now⟩).data = (sess', dc, .ok r)) :
    execute st now eid wid Scope.execution op [p] false
      = ({ executionStore := setMap (gcMap now st.executionStore) eid
             ⟨if dc then Value.obj [] else sess', now⟩,
           workflowStore := gcMap now st.workflowStore,
           globalStore := st.globalStore },
         .ok [r]) := by
  unfold execute runGarbageCollection
  simp only [Scope.name, execLoop, h]
  rfl

/-- A workflow-scoped single-item invocation whose item succeeds. -/
theorem execute_one_wf (st : Stores) (now : Nat) (eid wid : String) (op : Operation)
    (p : ItemParams) (sess' : Value) (dc : Bool) (r : Value)
    (h : execItem "workflow" op p
        ((gcMap now st.workflowStore wid).getD ⟨Value.obj [], now⟩).data = (sess', dc, .ok r)) :
    execute st now eid wid Scope.workflow op [p] false
      = ({ executionStore := gcMap now st.executionStore,
           workflowStore := setMap (gcMap now st.workflowStore) wid
             ⟨if dc then Value.obj [] else sess', now⟩,
           globalStore := st.globalStore },
         .ok [r]) := by
  unfold execute runGarbageCollection
  simp only [Scope.name, execLoop, h]
  rfl

/-- C5: a value set under execution scope during execution A is not visible
via `getAll` under execution scope during a distinct execution B (whose own
tree does not already contain the key), while a value set under workflow
scope by one execution is visible to a different execution sharing the same
workflow identifier (within the TTL). -/
theorem C5_scope_isolation
    (st : Stores) (eidA eidB wid k : String) (n : Int) (nowA nowB : Nat)
    (hne : eidB ≠ eidA)
    (hsize : sizeOk (Value.num n) = true)
    (hB : ∀ e, st.executionStore eidB = some e → getDeep e.data k = none)
    (hwf : ∀ e, st.workflowStore wid = some e → e.data.isObjLike = true)
    (httl : nowB - nowA ≤ TTL_MS) :
    (∃ d,
      (execute (execute st nowA eidA wid Scope.execution Operation.set
            (setInvocation k n) false).1
          nowB eidB wid Scope.execution Operation.getAll [{}] false).2 = .ok [d]
        ∧ getDeep d k = none) ∧
    (execute (execute st nowA eidA wid Scope.workflow Operation.set
          (setInvocation k n) false).1
        nowB eidB wid Scope.workflow Operation.get [{ key := k }] false).2
      = .ok [Value.obj [(lastSeg k, Value.num n)]] := by
  constructor
  · have hset := execItem_set_num "execution" k n
      ((gcMap nowA st.executionStore eidA).getD ⟨Value.obj [], nowA⟩).data hsize
    have hA := execute_one_exec st nowA eidA wid Operation.set
      { assignments := [{ key := k, type := ValType.number, valueNumber := n }] }
      _ _ _ hset
    simp only [setInvocation]
    rw [hA]
    have hGA := execute_one_exec
      { executionStore := setMap (gcMap nowA st.executionStore) eidA
          ⟨if false then Value.obj []
            else setDeep ((gcMap nowA st.executionStore eidA).getD
              ⟨Value.obj [], nowA⟩).data k (Value.num n), nowA⟩,
        workflowStore := gcMap nowA st.workflowStore,
        globalStore := st.globalStore }
      nowB eidB wid Operation.getAll {} _ _ _ rfl
    rw [hGA]
    refine ⟨_, rfl, ?_⟩
    show getDeep ((gcMap nowB (setMap (gcMap nowA st.executionStore) eidA _) eidB).getD
      ⟨Value.obj [], nowB⟩).data k = none
    have hsm : (setMap (gcMap nowA st.executionStore) eidA
        ⟨if false then Value.obj []
          else setDeep ((gcMap nowA st.executionStore eidA).getD
            ⟨Value.obj [], nowA⟩).data k (Value.num n), nowA⟩) eidB
        = gcMap nowA st.executionStore eidB := by
      simp [setMap, hne]
    rw [show (gcMap nowB (setMap (gcMap nowA st.executionStore) eidA _) eidB)
        = match (setMap (gcMap nowA st.executionStore) eidA _) eidB with
          | some e => if nowB - e.timestamp > TTL_MS then none else some e
          | none => none from rfl]
    rw [hsm]
    rw [show gcMap nowA st.executionStore eidB
        = match st.executionStore eidB with
          | some e => if nowA - e.timestamp > TTL_MS then none else some e
          | none => none from rfl]
    cases hEB : st.executionStore eidB with
    | none => exact getDeep_empty k
    | some e =>
      show getDeep ((match (if nowA - e.timestamp > TTL_MS then (none : Option StoreEntry)
          else some e) with
        | some e' => if nowB - e'.timestamp > TTL_MS then none else some e'
        | none => none).getD ⟨Value.obj [], nowB⟩).data k = none
      by_cases h1 : nowA - e.timestamp > TTL_MS
      · rw [if_pos h1]
        exact getDeep_empty k
      · rw [if_neg h1]
        show getDeep ((if nowB - e.timestamp > TTL_MS then (none : Option StoreEntry)
            else some e).getD ⟨Value.obj [], nowB⟩).data k = none
        by_cases h2 : nowB - e.timestamp > TTL_MS
        · rw [if_pos h2]
          exact getDeep_empty k
        · rw [if_neg h2]
          exact hB e hEB
  · have hset := execItem_set_num "workflow" k n
      ((gcMap nowA st.workflowStore wid).getD ⟨Value.obj [], nowA⟩).data hsize
    have hA := execute_one_wf st nowA eidA wid Operation.set
      { assignments := [{ key := k, type := ValType.number, valueNumber := n }] }
      _ _ _ hset
    simp only [setInvocation]
    rw [hA]
    have hGet : ∀ t : Value, execItem "workflow" Operation.get { key := k } t
        = (t, false, .ok (match getDeep t k with
            | some v => if v.isObjLike then v else Value.obj [(lastSeg k, v)]
            | none => Value.obj [])) := fun t => rfl
    have hGA := execute_one_wf
      { executionStore := gcMap nowA st.executionStore,
        workflowStore := setMap (gcMap nowA st.workflowStore) wid
          ⟨if false then Value.obj []
            else setDeep ((gcMap nowA st.workflowStore wid).getD
              ⟨Value.obj [], nowA⟩).data k (Value.num n), nowA⟩,
        globalStore := st.globalStore }
      nowB eidB wid Operation.get { key := k } _ _ _ (hGet _)
    rw [hGA]
    have hdataW : ((gcMap nowA st.workflowStore wid).getD
        ⟨Value.obj [], nowA⟩).data.isObjLike = true := by
      rw [show gcMap nowA st.workflowStore wid
          = match st.workflowStore wid with
            | some e => if nowA - e.timestamp > TTL_MS then none else some e
            | none => none from rfl]
      cases hW : st.workflowStore wid with
      | none => rfl
      | some e =>
        by_cases h1 : nowA - e.timestamp > TTL_MS
        · simp only [h1, if_pos]
          rfl
        · simp only [h1, if_neg, if_false]
          exact hwf e hW
    have hlook : (gcMap nowB (setMap (gcMap nowA st.workflowStore) wid
        ⟨if false then Value.obj []
          else setDeep ((gcMap nowA st.workflowStore wid).getD
            ⟨Value.obj [], nowA⟩).data k (Value.num n), nowA⟩) wid)
        = some ⟨setDeep ((gcMap nowA st.workflowStore wid).getD
            ⟨Value.obj [], nowA⟩).data k (Value.num n), nowA⟩ := by
      rw [show ∀ m : StoreMap, gcMap nowB m wid
          = match m wid with
            | some e => if nowB - e.timestamp > TTL_MS then none else some e
            | none => none from fun m => rfl]
      rw [show (setMap (gcMap nowA st.workflowStore) wid
          ⟨if false then Value.obj []
            else setDeep ((gcMap nowA st.workflowStore wid).getD
              ⟨Value.obj [], nowA⟩).data k (Value.num n), nowA⟩) wid
          = some ⟨setDeep ((gcMap nowA st.workflowStore wid).getD
              ⟨Value.obj [], nowA⟩).data k (Value.num n), nowA⟩ from by simp [setMap]]
      have : ¬ nowB - nowA > TTL_MS := by omega
      simp only [this, if_neg, if_false]
    rw [show ((gcMap nowB (setMap (gcMap nowA st.workflowStore) wid _) wid).getD
        ⟨Value.obj [], nowB⟩) = _ from congrArg (fun o => o.getD ⟨Value.obj [], nowB⟩) hlook]
    have hrt := getDeep_setDeep _ hdataW k (Value.num n)
    simp only [Option.getD_some]
    rw [hrt]
    rfl


theorem C5_witness :
    (∃ d,
      (execute (execute ⟨fun _ => none, fun _ => none, ⟨Value.obj [], 0⟩⟩ 100 "A" "W"
            Scope.execution Operation.set (setInvocation "k" 1) false).1
          200 "B" "W" Scope.execution Operation.getAll [{}] false).2 = .ok [d]
        ∧ getDeep d "k" = none) ∧
    (execute (execute ⟨fun _ => none, fun _ => none, ⟨Value.obj [], 0⟩⟩ 100 "A" "W"
          Scope.workflow Operation.set (setInvocation "k" 1) false).1
        200 "B" "W" Scope.workflow Operation.get [{ key := "k" }] false).2
      = .ok [Value.obj [(lastSeg "k", Value.num 1)]] :=
  C5_scope_isolation ⟨fun _ => none, fun _ => none, ⟨Value.obj [], 0⟩⟩ "A" "B" "W" "k" 1 100 200
    (by decide) (by decide) (fun _ h => Option.noConfusion h) (fun _ h => Option.noConfusion h)
    (by decide)

/-- C6: push/unshift on an absent path create a one-element sequence and
report length 1; on an existing sequence push appends and unshift prepends,
reporting the new length; pop removes and returns the last element and
shift the first, each reporting the new length. -/
theorem C6_array_semantics (sc kk : String) (fs : List (String × Value)) (v : Value)
    (es : List Value) (ps : List (String × Value)) (hsize : sizeOk v = true) :
    (getDeep (Value.obj fs) kk = none →
      execItem sc Operation.push { key := kk, value := JsonParam.val v } (Value.obj fs)
        = (setDeep (Value.obj fs) kk (Value.arr [v] []), false,
            .ok (Value.obj [("success", Value.bool true), ("key", Value.str kk),
              ("length", Value.num 1), ("op", Value.str "push")]))) ∧
    (getDeep (Value.obj fs) kk = some (Value.arr es ps) →
      execItem sc Operation.push { key := kk, value := JsonParam.val v } (Value.obj fs)
        = (setDeep (Value.obj fs) kk (Value.arr (es ++ [v]) ps), false,
            .ok (Value.obj [("success", Value.bool true), ("key", Value.str kk),
              ("length", Value.num ((es ++ [v]).length : Int)), ("op", Value.str "push")]))) ∧
    (getDeep (Value.obj fs) kk = none →
      execItem sc Operation.unshift { key := kk, value := JsonParam.val v } (Value.obj fs)
        = (setDeep (Value.obj fs) kk (Value.arr [v] []), false,
            .ok (Value.obj [("success", Value.bool true), ("key", Value.str kk),
              ("length", Value.num 1), ("op", Value.str "unshift")]))) ∧
    (getDeep (Value.obj fs) kk = some (Value.arr es ps) →
      execItem sc Operation.unshift { key := kk, value := JsonParam.val v } (Value.obj fs)
        = (setDeep (Value.obj fs) kk (Value.arr (v :: es) ps), false,
            .ok (Value.obj [("success", Value.bool true), ("key", Value.str kk),
              ("length", Value.num ((v :: es).length : Int)), ("op", Value.str "unshift")]))) ∧
    (getDeep (Value.obj fs) kk = some (Value.arr (es ++ [v]) ps) →
      execItem sc Operation.pop { key := kk } (Value.obj fs)
        = (setDeep (Value.obj fs) kk (Value.arr es ps), false,
            .ok (Value.obj [("success", Value.bool true), ("key", Value.str kk),
              ("value", v), ("length", Value.num (es.length : Int)),
              ("op", Value.str "pop")]))) ∧
    (getDeep (Value.obj fs) kk = some (Value.arr (v :: es) ps) →
      execItem sc Operation.shift { key := kk } (Value.obj fs)
        = (setDeep (Value.obj fs) kk (Value.arr es ps), false,
            .ok (Value.obj [("success", Value.bool true), ("key", Value.str kk),
              ("value", v), ("length", Value.num (es.length : Int)),
              ("op", Value.str "shift")]))) := by
  refine ⟨fun h => ?_, fun h => ?_, fun h => ?_, fun h => ?_, fun h => ?_, fun h => ?_⟩
  · simp [execItem, decodePushValue, h, hsize]
  · simp [execItem, decodePushValue, h, hsize]
  · simp [execItem, decodePushValue, h, hsize]
  · simp [execItem, decodePushValue, h, hsize]
  · simp [execItem, h, List.getLast?_concat, List.dropLast_concat]
  · simp [execItem, h]

theorem C6_witness :
    execItem "execution" Operation.push { key := "q", value := JsonParam.val (Value.num 1) }
        (Value.obj [])
      = (setDeep (Value.obj []) "q" (Value.arr [Value.num 1] []), false,
          .ok (Value.obj [("success", Value.bool true), ("key", Value.str "q"),
            ("length", Value.num 1), ("op", Value.str "push")])) ∧
    execItem "execution" Operation.push { key := "q", value := JsonParam.val (Value.num 2) }
        (Value.obj [("q", Value.arr [Value.num 1] [])])
      = (setDeep (Value.obj [("q", Value.arr [Value.num 1] [])]) "q"
            (Value.arr [Value.num 1, Value.num 2] []), false,
          .ok (Value.obj [("success", Value.bool true), ("key", Value.str "q"),
            ("length", Value.num 2), ("op", Value.str "push")])) ∧
    execItem "execution" Operation.pop { key := "q" }
        (Value.obj [("q", Value.arr [Value.num 1, Value.num 2] [])])
      = (setDeep (Value.obj [("q", Value.arr [Value.num 1, Value.num 2] [])]) "q"
            (Value.arr [Value.num 1] []), false,
          .ok (Value.obj [("success", Value.bool true), ("key", Value.str "q"),
            ("value", Value.num 2), ("length", Value.num 1), ("op", Value.str "pop")])) ∧
    execItem "execution" Operation.unshift { key := "q", value := JsonParam.val (Value.num 0) }
        (Value.obj [])
      = (setDeep (Value.obj []) "q" (Value.arr [Value.num 0] []), false,
          .ok (Value.obj [("success", Value.bool true), ("key", Value.str "q"),
            ("length", Value.num 1), ("op", Value.str "unshift")])) ∧
    execItem "execution" Operation.shift { key := "q" }
        (Value.obj [("q", Value.arr [Value.num 0] [])])
      = (setDeep (Value.obj [("q", Value.arr [Value.num 0] [])]) "q" (Value.arr [] []), false,
          .ok (Value.obj [("success", Value.bool true), ("key", Value.str "q"),
            ("value", Value.num 0), ("length", Value.num 0), ("op", Value.str "shift")])) :=
  ⟨(C6_array_semantics "execution" "q" [] (Value.num 1) [] [] (by decide)).1 (by decide),
   (C6_array_semantics "execution" "q" [("q", Value.arr [Value.num 1] [])] (Value.num 2)
      [Value.num 1] [] (by decide)).2.1 (by decide),
   (C6_array_semantics "execution" "q" [("q", Value.arr [Value.num 1, Value.num 2] [])]
      (Value.num 2) [Value.num 1] [] (by decide)).2.2.2.2.1 (by decide),
   (C6_array_semantics "execution" "q" [] (Value.num 0) [] [] (by decide)).2.2.1 (by decide),
   (C6_array_semantics "execution" "q" [("q", Value.arr [Value.num 0] [])] (Value.num 0)
      [] [] (by decide)).2.2.2.2.2 (by decide)⟩

/-- A batch of clear items never throws, and it sets the cleared flag iff
some item targets the entire scope. -/
theorem execLoop_clear (sc : String) (cof : Bool) :
    ∀ (params : List ItemParams) (stL : LoopState),
      ((execLoop sc Operation.clear cof stL params).1.cleared
          = (stL.cleared || params.any fun p => p.clearTarget == ClearTarget.all)) ∧
        (execLoop sc Operation.clear cof stL params).2 = none
  | [], stL => by simp [execLoop]
  | p :: rest, stL => by
    cases hct : p.clearTarget with
    | all =>
      have := execLoop_clear sc cof rest
        ⟨stL.sess, stL.cleared || true,
          stL.records ++ [Value.obj [("success", Value.bool true),
            ("op", Value.str "clear_all"), ("scope", Value.str sc)]]⟩
      simp only [execLoop, execItem, hct, List.any_cons]
      constructor
      · rw [this.1]
        simp [hct, Bool.or_assoc, show (ClearTarget.all == ClearTarget.all) = true from by decide]
      · exact this.2
    | key =>
      by_cases hk : p.key ≠ ""
      · have hrec := execLoop_clear sc cof rest
          ⟨deleteDeep stL.sess p.key, stL.cleared || false,
            stL.records ++ [Value.obj [("success", Value.bool true),
              ("key", Value.str p.key), ("op", Value.str "clear_key")]]⟩
        have hstep : execLoop sc Operation.clear cof stL (p :: rest)
            = execLoop sc Operation.clear cof
                ⟨deleteDeep stL.sess p.key, stL.cleared || false,
                  stL.records ++ [Value.obj [("success", Value.bool true),
                    ("key", Value.str p.key), ("op", Value.str "clear_key")]]⟩ rest := by
          simp only [execLoop, execItem, hct]
          rw [if_pos hk]
        constructor
        · rw [hstep, hrec.1]
          simp [hct, show (ClearTarget.key == ClearTarget.all) = false from by decide]
        · rw [hstep]
          exact hrec.2
      · have hrec := execLoop_clear sc cof rest
          ⟨stL.sess, stL.cleared || false, stL.records ++ [Value.obj []]⟩
        have hstep : execLoop sc Operation.clear cof stL (p :: rest)
            = execLoop sc Operation.clear cof
                ⟨stL.sess, stL.cleared || false, stL.records ++ [Value.obj []]⟩ rest := by
          simp only [execLoop, execItem, hct]
          rw [if_neg hk]
        constructor
        · rw [hstep, hrec.1]
          simp [hct, show (ClearTarget.key == ClearTarget.all) = false from by decide]
        · rw [hstep]
          exact hrec.2

/-- C7 counterexample: inside one invocation, a scope-wide clear does not
redirect later items to the emptied tree — the loop keeps operating on the
pre-clear tree (the second item removes key `"k"`, which only exists
there), so after the batch the loop tree is the mutated old tree, not the
empty mapping the claim predicts. -/
theorem C7_counterexample :
    (execLoop "execution" Operation.clear false
        ⟨Value.obj [("k", Value.num 1), ("j", Value.num 2)], false, []⟩
        [{ clearTarget := ClearTarget.all }, { clearTarget := ClearTarget.key, key := "k" }]).1.sess
      = Value.obj [("j", Value.num 2)] ∧
    (execLoop "execution" Operation.clear false
        ⟨Value.obj [("k", Value.num 1), ("j", Value.num 2)], false, []⟩
        [{ clearTarget := ClearTarget.all }, { clearTarget := ClearTarget.key, key := "k" }]).1.sess
      ≠ Value.obj [] := by
  decide

/-- C7 (amended): a scope-wide clear replaces the entry's tree with a fresh
empty mapping — after the invocation the entry's data is the empty mapping —
but the items after it in the same invocation continue to operate on the
pre-clear tree through the stale captured session reference (the emptied
tree is only observable from the next invocation on; a `getAll` cannot
follow a clear within one invocation, the operation being fixed per
invocation). -/
theorem C7_clear_amended :
    (∀ (st : Stores) (now : Nat) (eid wid : String) (params : List ItemParams) (cof : Bool),
      (params.any fun p => p.clearTarget == ClearTarget.all) = true →
        (execute st now eid wid Scope.execution Operation.clear params cof).1.executionStore eid
          = some ⟨Value.obj [], now⟩) ∧
    (∀ (sc : String) (cof : Bool) (sess : Value) (cl : Bool) (recs : List Value)
        (rest : List ItemParams),
      execLoop sc Operation.clear cof ⟨sess, cl, recs⟩
          ({ clearTarget := ClearTarget.all } :: rest)
        = execLoop sc Operation.clear cof
            ⟨sess, true, recs ++ [Value.obj [("success", Value.bool true),
              ("op", Value.str "clear_all"), ("scope", Value.str sc)]]⟩ rest) := by
  constructor
  · intro st now eid wid params cof hany
    have hL := execLoop_clear Scope.execution.name cof params
      ⟨((gcMap now st.executionStore eid).getD ⟨Value.obj [], now⟩).data, false, []⟩
    cases hE : execLoop Scope.execution.name Operation.clear cof
        ⟨((gcMap now st.executionStore eid).getD ⟨Value.obj [], now⟩).data, false, []⟩
        params with
    | mk final err =>
      rw [hE] at hL
      have herr : err = none := hL.2
      have hcl : final.cleared = true := by
        rw [hL.1]
        simp [hany]
      unfold execute runGarbageCollection
      simp only [Scope.name] at hE ⊢
      rw [hE]
      subst herr
      simp only [hcl, if_pos]
      simp [setMap]
  · intro sc cof sess cl recs rest
    simp [execLoop, execItem]

theorem C7_witness :
    (execute ⟨fun id => if id = "A" then some ⟨Value.obj [("k", Value.num 1)], 50⟩ else none,
        fun _ => none, ⟨Value.obj [], 0⟩⟩ 100 "A" "W" Scope.execution Operation.clear
        [{ clearTarget := ClearTarget.all }, { clearTarget := ClearTarget.key, key := "k" }]
        false).1.executionStore "A" = some ⟨Value.obj [], 100⟩ :=
  C7_clear_amended.1
    ⟨fun id => if id = "A" then some ⟨Value.obj [("k", Value.num 1)], 50⟩ else none,
      fun _ => none, ⟨Value.obj [], 0⟩⟩ 100 "A" "W"
    [{ clearTarget := ClearTarget.all }, { clearTarget := ClearTarget.key, key := "k" }]
    false (by decide)

/-- C8 counterexample: a malformed JSON string in a set assignment DOES make
the operation fail — the set branch's `JSON.parse` is not guarded by
try/catch — and the raw string is not stored. -/
theorem C8_counterexample :
    parseJson "[" = none ∧
    execItem "execution" Operation.set
        { assignments :=
            [{ key := "k", type := ValType.array, valueArray := JsonParam.raw "[" }] }
        (Value.obj [])
      = (Value.obj [], false, .error ExecErr.jsonSyntax) := by
  decide

/-- C8 (amended): for push/unshift a malformed JSON array/object value
string is tolerated — the raw string itself is stored; for the set
assignments the decode is unguarded — a malformed array-typed value string
throws a syntax error and the failing assignment (and the rest of its
batch) writes nothing. -/
theorem C8_json_fallback_amended :
    (∀ (vt : ValType) (str : String), parseJson str = none →
      (vt = ValType.array ∨ vt = ValType.object) →
        decodePushValue vt (JsonParam.raw str) = Value.str str) ∧
    (∀ (sc k raw : String) (fs : List (String × Value)), parseJson raw = none →
      sizeOk (Value.str raw) = true → getDeep (Value.obj fs) k = none →
        execItem sc Operation.push
            { key := k, valueType := ValType.array, value := JsonParam.raw raw }
            (Value.obj fs)
          = (setDeep (Value.obj fs) k (Value.arr [Value.str raw] []), false,
              .ok (Value.obj [("success", Value.bool true), ("key", Value.str k),
                ("length", Value.num 1), ("op", Value.str "push")]))) ∧
    (∀ (mode : SetMode) (sess : Value) (res : List (String × Value)) (k raw : String)
        (rest : List Assignment), parseJson raw = none →
      runSet mode sess res
          ({ key := k, type := ValType.array, valueArray := JsonParam.raw raw } :: rest)
        = (sess, res, some ExecErr.jsonSyntax)) := by
  refine ⟨?_, ?_, ?_⟩
  · intro vt str hparse hvt
    simp [decodePushValue, hparse, hvt]
  · intro sc k raw fs hparse hsize hget
    simp [execItem, decodePushValue, hparse, hsize, hget]
  · intro mode sess res k raw rest hparse
    simp [runSet, setStep, decodeAssignment, hparse]

theorem C8_witness :
    decodePushValue ValType.array (JsonParam.raw "[") = Value.str "[" ∧
    execItem "execution" Operation.push
        { key := "k", valueType := ValType.array, value := JsonParam.raw "[" }
        (Value.obj [])
      = (setDeep (Value.obj []) "k" (Value.arr [Value.str "["] []), false,
          .ok (Value.obj [("success", Value.bool true), ("key", Value.str "k"),
            ("length", Value.num 1), ("op", Value.str "push")])) ∧
    runSet SetMode.auto (Value.obj []) []
        [{ key := "k", type := ValType.array, valueArray := JsonParam.raw "[" }]
      = (Value.obj [], [], some ExecErr.jsonSyntax) :=
  ⟨C8_json_fallback_amended.1 ValType.array "[" (by decide) (Or.inl rfl),
   C8_json_fallback_amended.2.1 "execution" "k" "[" [] (by decide) (by decide) (by decide),
   C8_json_fallback_amended.2.2 SetMode.auto (Value.obj []) [] "k" "[" [] (by decide)⟩

/-- In lenient mode the loop emits exactly one record per input item. -/
theorem execLoop_records_len (sc : String) (op : Operation) :
    ∀ (ps : List ItemParams) (stL : LoopState),
      ((execLoop sc op true stL ps).1.records).length = stL.records.length + ps.length
  | [], stL => by simp [execLoop]
  | p :: rest, stL => by
    cases hE : execItem sc op p stL.sess with
    | mk sess' rr =>
      obtain ⟨dc, r⟩ := rr
      cases r with
      | ok rec =>
        have ih := execLoop_records_len sc op rest
          ⟨sess', stL.cleared || dc, stL.records ++ [rec]⟩
        simp only [execLoop, hE, ih, List.length_append, List.length_cons,
          List.length_nil]
        omega
      | error e =>
        have ih := execLoop_records_len sc op rest
          ⟨sess', stL.cleared || dc,
            stL.records ++ [Value.obj [("error", Value.str (errMessage e))]]⟩
        simp only [execLoop, hE, if_pos, ih, List.length_append, List.length_cons,
          List.length_nil]
        omega

/-- C9 counterexample: the record of a `exists` item contains neither a
`success` nor an `op` field. -/
theorem C9_counterexample :
    (execItem "execution" Operation.checkExists { key := "k" } (Value.obj [])).2.2
      = .ok (Value.obj [("key", Value.str "k"), ("exists", Value.bool false)]) ∧
    hasField (Value.obj [("key", Value.str "k"), ("exists", Value.bool false)]) "success"
      = false ∧
    hasField (Value.obj [("key", Value.str "k"), ("exists", Value.bool false)]) "op"
      = false := by
  decide

/-- C9 (amended): one record per input item in lenient mode; the records of
set, push, unshift, pop, shift, remove and clear (scope-wide, or single-key
with a nonempty key) contain `success` and `op`; increment/decrement
records contain `op` but no `success`; `exists` produces `{key, exists}`,
`getAll` the scope tree itself, and `get` the resolved value or a one-field
wrapper — none of them with `success`/`op`; a soft per-item failure yields
an `{error}` record. -/
theorem C9_output_amended :
    (∀ (sc : String) (op : Operation) (ps : List ItemParams) (stL : LoopState),
      ((execLoop sc op true stL ps).1.records).length = stL.records.length + ps.length) ∧
    (∀ (sc : String) (p : ItemParams) (sess r : Value),
      (execItem sc Operation.set p sess).2.2 = .ok r →
        hasField r "success" = true ∧ hasField r "op" = true) ∧
    (∀ (sc : String) (p : ItemParams) (sess r : Value),
      (execItem sc Operation.push p sess).2.2 = .ok r →
        hasField r "success" = true ∧ hasField r "op" = true) ∧
    (∀ (sc : String) (p : ItemParams) (sess r : Value),
      (execItem sc Operation.unshift p sess).2.2 = .ok r →
        hasField r "success" = true ∧ hasField r "op" = true) ∧
    (∀ (sc : String) (p : ItemParams) (sess r : Value),
      (execItem sc Operation.pop p sess).2.2 = .ok r →
        hasField r "success" = true ∧ hasField r "op" = true) ∧
    (∀ (sc : String) (p : ItemParams) (sess r : Value),
      (execItem sc Operation.shift p sess).2.2 = .ok r →
        hasField r "success" = true ∧ hasField r "op" = true) ∧
    (∀ (sc : String) (p : ItemParams) (sess r : Value),
      (execItem sc Operation.remove p sess).2.2 = .ok r →
        hasField r "success" = true ∧ hasField r "op" = true) ∧
    (∀ (sc : String) (p : ItemParams) (sess r : Value),
      (execItem sc Operation.increment p sess).2.2 = .ok r →
        hasField r "op" = true ∧ hasField r "success" = false) ∧
    (∀ (sc : String) (p : ItemParams) (sess r : Value),
      (execItem sc Operation.decrement p sess).2.2 = .ok r →
        hasField r "op" = true ∧ hasField r "success" = false) ∧
    (∀ (sc : String) (p : ItemParams) (sess : Value),
      (execItem sc Operation.get p sess).2.2
        = .ok (match getDeep sess p.key with
            | some v => if v.isObjLike then v else Value.obj [(lastSeg p.key, v)]
            | none => Value.obj [])) ∧
    (∀ (sc : String) (p : ItemParams) (sess v : Value),
      getDeep sess p.key = some v → v.isObjLike = false →
        (execItem sc Operation.get p sess).2.2 = .ok (Value.obj [(lastSeg p.key, v)]) ∧
        (lastSeg p.key ≠ "success" →
          hasField (Value.obj [(lastSeg p.key, v)]) "success" = false) ∧
        (lastSeg p.key ≠ "op" →
          hasField (Value.obj [(lastSeg p.key, v)]) "op" = false)) ∧
    (∀ (sc : String) (p : ItemParams) (sess : Value),
      (execItem sc Operation.checkExists p sess).2.2
        = .ok (Value.obj [("key", Value.str p.key),
            ("exists", Value.bool (getDeep sess p.key).isSome)])) ∧
    (∀ (sc : String) (p : ItemParams) (sess : Value),
      (execItem sc Operation.getAll p sess).2.2 = .ok sess) ∧
    (∀ (sc : String) (p : ItemParams) (sess r : Value),
      (p.clearTarget = ClearTarget.all ∨ p.key ≠ "") →
        (execItem sc Operation.clear p sess).2.2 = .ok r →
          hasField r "success" = true ∧ hasField r "op" = true) ∧
    (∀ (sc : String) (op : Operation) (stL : LoopState) (p : ItemParams)
        (rest : List ItemParams) (sess' : Value) (dc : Bool) (e : ExecErr),
      execItem sc op p stL.sess = (sess', dc, .error e) →
        execLoop sc op true stL (p :: rest)
          = execLoop sc op true ⟨sess', stL.cleared || dc,
              stL.records ++ [Value.obj [("error", Value.str (errMessage e))]]⟩ rest ∧
        hasField (Value.obj [("error", Value.str (errMessage e))]) "error" = true) := by
  refine ⟨execLoop_records_len, ?_, ?_, ?_, ?_, ?_, ?_, ?_, ?_, ?_, ?_, ?_, ?_, ?_, ?_⟩
  · intro sc p sess r hr
    revert hr
    cases hrs : runSet p.setMode sess [] p.assignments with
    | mk a b =>
      obtain ⟨res, errq⟩ := b
      cases errq with
      | some e => simp [execItem, hrs]
      | none =>
        simp only [execItem, hrs, Except.ok.injEq]
        intro hr
        subst hr
        simp [hasField, lookupA]
  · intro sc p sess r hr
    revert hr
    simp only [execItem]
    cases hg : (getDeep sess p.key).getD (Value.arr [] []) with
    | arr elems props =>
      by_cases hs : sizeOk (decodePushValue p.valueType p.value) = true
      · simp only [hs, if_pos, Except.ok.injEq]
        intro hr
        subst hr
        simp [hasField, lookupA]
      · simp [hs]
    | null => simp
    | bool b => simp
    | num n => simp
    | str s2 => simp
    | obj fields => simp
  · intro sc p sess r hr
    revert hr
    simp only [execItem]
    cases hg : (getDeep sess p.key).getD (Value.arr [] []) with
    | arr elems props =>
      by_cases hs : sizeOk (decodePushValue p.valueType p.value) = true
      · simp only [hs, if_pos, Except.ok.injEq]
        intro hr
        subst hr
        simp [hasField, lookupA]
      · simp [hs]
    | null => simp
    | bool b => simp
    | num n => simp
    | str s2 => simp
    | obj fields => simp
  · intro sc p sess r hr
    revert hr
    simp only [execItem]
    cases hg : getDeep sess p.key with
    | none => simp
    | some w =>
      cases w with
      | arr elems props =>
        simp only [Except.ok.injEq]
        intro hr
        subst hr
        cases elems.getLast? <;> simp [hasField, lookupA]
      | null => simp
      | bool b => simp
      | num n => simp
      | str s2 => simp
      | obj fields => simp
  · intro sc p sess r hr
    revert hr
    simp only [execItem]
    cases hg : getDeep sess p.key with
    | none => simp
    | some w =>
      cases w with
      | arr elems props =>
        simp only [Except.ok.injEq]
        intro hr
        subst hr
        cases elems.head? <;> simp [hasField, lookupA]
      | null => simp
      | bool b => simp
      | num n => simp
      | str s2 => simp
      | obj fields => simp
  · intro sc p sess r hr
    revert hr
    simp only [execItem, Except.ok.injEq]
    intro hr
    subst hr
    simp [hasField, lookupA]
  · intro sc p sess r hr
    revert hr
    simp only [execItem, Except.ok.injEq]
    intro hr
    subst hr
    simp [hasField, lookupA]
  · intro sc p sess r hr
    revert hr
    simp only [execItem, Except.ok.injEq]
    intro hr
    subst hr
    simp [hasField, lookupA]
  · intro sc p sess
    rfl
  · intro sc p sess v hg hv
    refine ⟨?_, fun hk => ?_, fun hk => ?_⟩
    · simp [execItem, hg, hv]
    · simp [hasField, lookupA, hk]
    · simp [hasField, lookupA, hk]
  · intro sc p sess
    rfl
  · intro sc p sess
    rfl
  · intro sc p sess r hcond hr
    revert hr
    cases hct : p.clearTarget with
    | all =>
      simp only [execItem, hct, Except.ok.injEq]
      intro hr
      subst hr
      simp [hasField, lookupA]
    | key =>
      have hk : p.key ≠ "" := by
        rcases hcond with hc | hc
        · rw [hct] at hc
          exact absurd hc (by simp)
        · exact hc
      simp only [execItem, hct]
      rw [if_pos hk]
      simp only [Except.ok.injEq]
      intro hr
      subst hr
      simp [hasField, lookupA]
  · intro sc op stL p rest sess' dc e hE
    exact ⟨by simp [execLoop, hE], by simp [hasField, lookupA]⟩

theorem C9_witness :
    (hasField (Value.obj [("success", Value.bool true), ("key", Value.str "q"),
        ("length", Value.num 1), ("op", Value.str "push")]) "success" = true ∧
      hasField (Value.obj [("success", Value.bool true), ("key", Value.str "q"),
        ("length", Value.num 1), ("op", Value.str "push")]) "op" = true) ∧
    (execItem "execution" Operation.get { key := "x" }
        (Value.obj [("x", Value.num 7)])).2.2
      = .ok (Value.obj [(lastSeg "x", Value.num 7)]) ∧
    hasField (Value.obj [(lastSeg "x", Value.num 7)]) "success" = false ∧
    hasField (Value.obj [(lastSeg "x", Value.num 7)]) "op" = false :=
  have hget := C9_output_amended.2.2.2.2.2.2.2.2.2.2.1 "execution" { key := "x" }
    (Value.obj [("x", Value.num 7)]) (Value.num 7) (by decide) (by decide)
  ⟨C9_output_amended.2.2.1 "execution"
      { key := "q", value := JsonParam.val (Value.num 1) } (Value.obj [])
      (Value.obj [("success", Value.bool true), ("key", Value.str "q"),
        ("length", Value.num 1), ("op", Value.str "push")])
      (by decide),
    hget.1, hget.2.1 (by decide), hget.2.2 (by decide)⟩

end SessionStore
